import Mathlib

/-!
# ReactXO: verification of the game-state core of `src/App.jsx`

Shallow embedding of the tic-tac-toe engine from `src/App.jsx`
(NovaCodesStuff/ReactXO).  Cells hold `null`, `"X"` or `"O"` in the
source; we model them as `Option Player`.  Boards are JavaScript arrays
of cells, modelled as `List Cell`; reading an index out of bounds in JS
yields `undefined`, which behaves like an empty cell in every read the
engine performs, so we model reads with `List.getD _ _ none`.  Writing
past the end of a JS array extends it; `jsArraySet` models that.

The component state (`screen`, `boardSize`, `history`, `currentMove`,
`scoreX`, `scoreO`) is modelled as the structure `GameState`, and the
event handlers (`handleStart`, `handlePlay`, `handleClick`, `jumpTo`,
`restartGame`) as state-transition functions.
-/

namespace ReactXO

/-- A player mark: the strings `"X"` and `"O"` in the source. -/
inductive Player where
  | X : Player
  | O : Player
deriving DecidableEq, Repr

/-- A cell of the board: `null` (empty) or a player mark. -/
abbrev Cell := Option Player

/-- A board snapshot: the `squares` array of `src/App.jsx`. -/
abbrev Board := List Cell

/-- JS array read `squares[idx]`: out-of-bounds reads give `undefined`,
which the engine only ever tests for truthiness or compares against a
mark, so it behaves exactly like an empty cell. -/
def jsGet (squares : Board) (idx : Nat) : Cell :=
  squares.getD idx none

/-- JS array write `arr[i] = v`: in-bounds writes replace the element;
writing past the end extends the array to length `i + 1` (the new slots
read back as `undefined`, which we model as empty cells). -/
def jsArraySet (l : Board) (i : Nat) (v : Cell) : Board :=
  if i < l.length then l.set i v
  else l ++ List.replicate (i - l.length) none ++ [v]

/-- `generateWinningLines(N)` from `src/App.jsx` lines 308-339: the `N`
rows, then the `N` columns, then the main diagonal, then the
anti-diagonal, in that order. -/
def generateWinningLines (N : Nat) : List (List Nat) :=
  ((List.range N).map (fun r => (List.range N).map (fun c => r * N + c)))
    ++ ((List.range N).map (fun c => (List.range N).map (fun r => r * N + c)))
    ++ [(List.range N).map (fun i => i * N + i)]
    ++ [(List.range N).map (fun i => i * N + (N - 1 - i))]

/-- The value `{ player, line }` returned by `calculateWinner`. -/
structure WinnerInfo where
  player : Player
  line : List Nat
deriving DecidableEq, Repr

/-- The loop body of `calculateWinner` (`src/App.jsx` lines 296-301):
scan the given lines in order; for each line take `first = line[0]` and
return `{ player: squares[first], line }` for the first line whose first
cell is truthy and all of whose cells strictly equal `squares[first]`. -/
def findWin (squares : Board) : List (List Nat) → Option WinnerInfo
  | [] => none
  | line :: rest =>
    match line with
    | [] => findWin squares rest
    | first :: _ =>
      match jsGet squares first with
      | none => findWin squares rest
      | some p =>
        if line.all (fun idx => jsGet squares idx = some p)
        then some ⟨p, line⟩
        else findWin squares rest

/-- `calculateWinner(squares, N)` from `src/App.jsx` lines 293-303.
(The `if (!squares) return null` guard concerns an `undefined` board,
which cannot arise for the states the claims quantify over.) -/
def calculateWinner (squares : Board) (N : Nat) : Option WinnerInfo :=
  findWin squares (generateWinningLines N)

/-- The `screen` state: `"menu"` or `"game"`. -/
inductive Screen where
  | menu : Screen
  | game : Screen
deriving DecidableEq, Repr

/-- The component state of `App` (`src/App.jsx` lines 5-13). -/
structure GameState where
  screen : Screen
  boardSize : Nat
  history : List Board
  currentMove : Nat
  scoreX : Nat
  scoreO : Nat
deriving DecidableEq, Repr

/-- `Array(boardSize * boardSize).fill(null)`: the empty N×N board. -/
def emptyBoard (N : Nat) : Board :=
  List.replicate (N * N) none

/-- `xIsNext = currentMove % 2 === 0` (`src/App.jsx` line 15). -/
def xIsNext (s : GameState) : Bool :=
  s.currentMove % 2 = 0

/-- `currentSquares = history[currentMove]` (`src/App.jsx` line 16). -/
def currentSquares (s : GameState) : Board :=
  s.history.getD s.currentMove []

/-- `handleStart` (`src/App.jsx` lines 19-23): reset the history to one
empty board, reset `currentMove`, switch to the game screen. -/
def handleStart (s : GameState) : GameState :=
  { s with
      history := [emptyBoard s.boardSize]
      currentMove := 0
      screen := Screen.game }

/-- Lines 27-29 of `handlePlay`: `nextHistory = [...history.slice(0,
currentMove + 1), nextSquares]`, `setHistory(nextHistory)`,
`setCurrentMove(nextHistory.length - 1)`.  JS `slice(0, k)` clamps to
the array length exactly as `List.take k` does. -/
def pushBoard (s : GameState) (nextSquares : Board) : GameState :=
  { s with
      history := s.history.take (s.currentMove + 1) ++ [nextSquares]
      currentMove := (s.history.take (s.currentMove + 1) ++ [nextSquares]).length - 1 }

/-- `handlePlay(nextSquares)` (`src/App.jsx` lines 26-35): truncate the
history to `[0..currentMove]`, append the new board, point `currentMove`
at the new last index, and if the new board has a winner bump that
player's score (`setScoreX(prev => prev + 1)` / likewise for O). -/
def handlePlay (s : GameState) (nextSquares : Board) : GameState :=
  match calculateWinner nextSquares s.boardSize with
  | none => pushBoard s nextSquares
  | some wi =>
    if wi.player = Player.X
    then { pushBoard s nextSquares with scoreX := s.scoreX + 1 }
    else { pushBoard s nextSquares with scoreO := s.scoreO + 1 }

/-- `jumpTo(move)` (`src/App.jsx` lines 38-40): set `currentMove`.
The source performs no range check of any kind. -/
def jumpTo (s : GameState) (move : Nat) : GameState :=
  { s with currentMove := move }

/-- `restartGame` (`src/App.jsx` lines 43-46): reset the history to one
empty board and `currentMove` to 0; scores and screen untouched. -/
def restartGame (s : GameState) : GameState :=
  { s with
      history := [emptyBoard s.boardSize]
      currentMove := 0 }

/-- `handleClick(i)` (`src/App.jsx` lines 143-148), inlining the
`squares`/`winnerInfo` props of `GameScreen`: if there is already a
winner on the active board, or `squares[i]` is truthy, do nothing;
otherwise copy the active board, set cell `i` to the next player's mark,
and call `handlePlay`. -/
def handleClick (s : GameState) (i : Nat) : GameState :=
  if (calculateWinner (currentSquares s) s.boardSize).isSome
      ∨ (jsGet (currentSquares s) i).isSome then s
  else
    handlePlay s
      (jsArraySet (currentSquares s) i
        (some (if xIsNext s then Player.X else Player.O)))

/-- The status read of `GameScreen` (`src/App.jsx` lines 137-142). -/
inductive Status where
  | win : Player → Status
  | draw : Status
  | next : Player → Status
deriving DecidableEq, Repr

/-- `status` (`src/App.jsx` lines 137-142): `Winner: p` if the active
board has a winning line, else `Draw!` if every cell is non-null, else
`Next: X/O` by `xIsNext`. -/
def status (s : GameState) : Status :=
  match calculateWinner (currentSquares s) s.boardSize with
  | some wi => Status.win wi.player
  | none =>
    if (currentSquares s).all (fun v => v.isSome) then Status.draw
    else Status.next (if xIsNext s then Player.X else Player.O)

/-- Spec-side notion (from §4.2 step 2 of the spec, for comparison with
`calculateWinner`): a line is complete when its first cell is non-Empty
and all its cells hold the identical mark. -/
def lineComplete (squares : Board) (line : List Nat) : Bool :=
  match line.head? with
  | none => false
  | some first =>
    (jsGet squares first).isSome
      && line.all (fun idx => jsGet squares idx = jsGet squares first)

/-- Spec-side notion (from §4.2 step 2 of the spec): return the first
complete line of the enumeration, paired with the mark of its first
cell. -/
def specFirstWin (squares : Board) (lines : List (List Nat)) : Option WinnerInfo :=
  match lines.find? (lineComplete squares) with
  | none => none
  | some line =>
    match jsGet squares (line.headD 0) with
    | none => none
    | some p => some ⟨p, line⟩

/-! ## Concrete states used by witnesses and counterexamples -/

/-- A fresh 3×3 game, as produced by pressing Start. -/
def freshState : GameState :=
  ⟨Screen.game, 3, [emptyBoard 3], 0, 0, 0⟩

/-- Board after X plays cell 0. -/
def hb1 : Board := (emptyBoard 3).set 0 (some Player.X)

/-- Board after X plays 0, O plays 4. -/
def hb2 : Board := hb1.set 4 (some Player.O)

/-- Board after X plays 0, O plays 4, X plays 1. -/
def hb3 : Board := hb2.set 1 (some Player.X)

/-- Board after X plays 0, O plays 4, X plays 1, O plays 5. -/
def hb4 : Board := hb3.set 5 (some Player.O)

/-- A 3×3 game with a five-snapshot history, positioned at the end. -/
def demoState5 : GameState :=
  ⟨Screen.game, 3, [emptyBoard 3, hb1, hb2, hb3, hb4], 4, 0, 0⟩

/-- A 3×3 game after one move, X occupying cell 0. -/
def occupiedState : GameState :=
  ⟨Screen.game, 3, [emptyBoard 3, hb1], 1, 0, 0⟩

/-- A 3×3 game with a three-snapshot history, positioned at the end. -/
def lenThreeState : GameState :=
  ⟨Screen.game, 3, [emptyBoard 3, hb1, hb2], 2, 0, 0⟩

/-- A 3×3 board where X has completed row 0. -/
def rowWinBoard : Board :=
  [some Player.X, some Player.X, some Player.X,
   some Player.O, some Player.O, none, none, none, none]

/-- A finished 3×3 game whose active board is `rowWinBoard`. -/
def wonState : GameState :=
  ⟨Screen.game, 3, [rowWinBoard], 0, 1, 0⟩

/-! ## Helper lemmas -/

theorem row_col_idx_lt {N r c : Nat} (hr : r < N) (hc : c < N) :
    r * N + c < N * N := by
  calc r * N + c < r * N + N := by omega
    _ = (r + 1) * N := by ring
    _ ≤ N * N := Nat.mul_le_mul_right N hr

/-- Every line produced by `generateWinningLines N` has length `N` and
all its indices below `N²`. -/
theorem generateWinningLines_sizes {N : Nat} :
    ∀ line ∈ generateWinningLines N,
      line.length = N ∧ ∀ idx ∈ line, idx < N * N := by
  intro line hline
  simp only [generateWinningLines, List.mem_append, List.mem_map,
    List.mem_range, List.mem_singleton] at hline
  rcases hline with ((⟨r, hr, rfl⟩ | ⟨c, hc, rfl⟩) | rfl) | rfl
  · refine ⟨by simp, ?_⟩
    intro idx hidx
    simp only [List.mem_map, List.mem_range] at hidx
    obtain ⟨c, hc, rfl⟩ := hidx
    exact row_col_idx_lt hr hc
  · refine ⟨by simp, ?_⟩
    intro idx hidx
    simp only [List.mem_map, List.mem_range] at hidx
    obtain ⟨r, hr, rfl⟩ := hidx
    exact row_col_idx_lt hr hc
  · refine ⟨by simp, ?_⟩
    intro idx hidx
    simp only [List.mem_map, List.mem_range] at hidx
    obtain ⟨i, hi, rfl⟩ := hidx
    exact row_col_idx_lt hi hi
  · refine ⟨by simp, ?_⟩
    intro idx hidx
    simp only [List.mem_map, List.mem_range] at hidx
    obtain ⟨i, hi, rfl⟩ := hidx
    exact row_col_idx_lt hi (by omega)

theorem getD_map_range {α : Type} {f : Nat → α} {N r : Nat} {d : α} (h : r < N) :
    ((List.range N).map f).getD r d = f r := by
  rw [List.getD_eq_getElem _ _ (by simpa using h)]
  simp

/-- The scan of `calculateWinner` returns exactly the first complete
line of the list, with the mark of its first cell. -/
theorem findWin_eq_spec (squares : Board) :
    ∀ lines, findWin squares lines = specFirstWin squares lines := by
  intro lines
  induction lines with
  | nil => rfl
  | cons line rest ih =>
    cases line with
    | nil =>
      show findWin squares rest = specFirstWin squares ([] :: rest)
      simp only [specFirstWin,
        List.find?_cons_of_neg _ (by simp [lineComplete] : ¬lineComplete squares [] = true)]
      exact ih
    | cons first tl =>
      cases hg : jsGet squares first with
      | none =>
        have hlc : ¬lineComplete squares (first :: tl) = true := by
          simp [lineComplete, hg]
        simp only [findWin, hg, specFirstWin, List.find?_cons_of_neg _ hlc]
        exact ih
      | some p =>
        have hcomp : lineComplete squares (first :: tl)
            = (first :: tl).all (fun idx => jsGet squares idx = some p) := by
          simp [lineComplete, hg]
        cases hall : (first :: tl).all (fun idx => jsGet squares idx = some p) with
        | false =>
          have hlc : ¬lineComplete squares (first :: tl) = true := by
            rw [hcomp, hall]; simp
          simp only [findWin, hg, hall, specFirstWin,
            List.find?_cons_of_neg _ hlc, Bool.false_eq_true, if_false]
          exact ih
        | true =>
          have hlc : lineComplete squares (first :: tl) = true := by
            rw [hcomp, hall]
          simp only [findWin, hg, hall, specFirstWin,
            List.find?_cons_of_pos _ hlc, if_true]
          simp [jsGet] at hg
          simp [jsGet, hg]

theorem handlePlay_history (s : GameState) (ns : Board) :
    (handlePlay s ns).history = s.history.take (s.currentMove + 1) ++ [ns] := by
  unfold handlePlay
  split
  · rfl
  · split <;> rfl

theorem handlePlay_currentMove (s : GameState) (ns : Board) :
    (handlePlay s ns).currentMove
      = (s.history.take (s.currentMove + 1) ++ [ns]).length - 1 := by
  unfold handlePlay
  split
  · rfl
  · split <;> rfl

theorem handlePlay_boardSize (s : GameState) (ns : Board) :
    (handlePlay s ns).boardSize = s.boardSize := by
  unfold handlePlay
  split
  · rfl
  · split <;> rfl

theorem handlePlay_screen (s : GameState) (ns : Board) :
    (handlePlay s ns).screen = s.screen := by
  unfold handlePlay
  split
  · rfl
  · split <;> rfl

theorem handlePlay_scores_none (s : GameState) (ns : Board)
    (h : calculateWinner ns s.boardSize = none) :
    (handlePlay s ns).scoreX = s.scoreX ∧ (handlePlay s ns).scoreO = s.scoreO := by
  unfold handlePlay
  rw [h]
  exact ⟨rfl, rfl⟩

theorem handlePlay_scores_someX (s : GameState) (ns : Board) (wi : WinnerInfo)
    (h : calculateWinner ns s.boardSize = some wi) (hp : wi.player = Player.X) :
    (handlePlay s ns).scoreX = s.scoreX + 1 ∧ (handlePlay s ns).scoreO = s.scoreO := by
  unfold handlePlay
  simp only [h]
  rw [if_pos hp]
  exact ⟨rfl, rfl⟩

theorem handlePlay_scores_someO (s : GameState) (ns : Board) (wi : WinnerInfo)
    (h : calculateWinner ns s.boardSize = some wi) (hp : wi.player = Player.O) :
    (handlePlay s ns).scoreO = s.scoreO + 1 ∧ (handlePlay s ns).scoreX = s.scoreX := by
  unfold handlePlay
  simp only [h]
  rw [if_neg (by rw [hp]; decide)]
  exact ⟨rfl, rfl⟩

/-- After any `handlePlay`, the active board is the board just played. -/
theorem currentSquares_handlePlay (s : GameState) (ns : Board) :
    currentSquares (handlePlay s ns) = ns := by
  unfold currentSquares
  rw [handlePlay_history, handlePlay_currentMove]
  have h1 : (s.history.take (s.currentMove + 1) ++ [ns]).length - 1
      = (s.history.take (s.currentMove + 1)).length := by simp
  rw [h1, List.getD_append_right _ _ _ _ (le_refl _)]
  simp

theorem handleClick_guard_pos (s : GameState) (i : Nat)
    (h : (calculateWinner (currentSquares s) s.boardSize).isSome
        ∨ (jsGet (currentSquares s) i).isSome) :
    handleClick s i = s := by
  unfold handleClick
  rw [if_pos h]

theorem handleClick_guard_neg (s : GameState) (i : Nat)
    (h : ¬((calculateWinner (currentSquares s) s.boardSize).isSome
        ∨ (jsGet (currentSquares s) i).isSome)) :
    handleClick s i
      = handlePlay s
          (jsArraySet (currentSquares s) i
            (some (if xIsNext s then Player.X else Player.O))) := by
  unfold handleClick
  rw [if_neg h]

theorem xIsNext_mark (s : GameState) :
    (if xIsNext s then Player.X else Player.O)
      = (if s.currentMove % 2 = 0 then Player.X else Player.O) := by
  by_cases h : s.currentMove % 2 = 0 <;> simp [xIsNext, h]

/-! ## Claim theorems -/

/-- C1: `calculateWinner` scans the candidate lines in the fixed
enumeration order produced by `generateWinningLines` (N rows, then N
columns, then main diagonal, then anti-diagonal) and returns the first
line whose first cell is non-Empty and whose cells all hold the
identical mark, together with that mark as the winning player; if no
such line exists it reports no winner (`specFirstWin` is the spec-side
first-complete-line selector). -/
theorem calculateWinner_first_complete_line (squares : Board) (N : Nat) :
    calculateWinner squares N = specFirstWin squares (generateWinningLines N) :=
  findWin_eq_spec squares (generateWinningLines N)

/-- C2: `generateWinningLines N` produces exactly `2N+2` lines, each of
length `N` with every index below `N²`; positionally, line `r < N` is
row `r` (`{r·N + c}`), line `N + c` for `c < N` is column `c`
(`{r·N + c}`), line `2N` is the main diagonal (`{i·N + i}`) and line
`2N+1` is the anti-diagonal (`{i·N + (N-1-i)}`). -/
theorem generateWinningLines_spec (N : Nat) :
    (generateWinningLines N).length = 2 * N + 2
    ∧ (∀ line ∈ generateWinningLines N,
        line.length = N ∧ ∀ idx ∈ line, idx < N * N)
    ∧ (∀ r, r < N →
        (generateWinningLines N).getD r []
          = (List.range N).map (fun c => r * N + c))
    ∧ (∀ c, c < N →
        (generateWinningLines N).getD (N + c) []
          = (List.range N).map (fun r => r * N + c))
    ∧ (generateWinningLines N).getD (2 * N) []
        = (List.range N).map (fun i => i * N + i)
    ∧ (generateWinningLines N).getD (2 * N + 1) []
        = (List.range N).map (fun i => i * N + (N - 1 - i)) := by
  refine ⟨?_, generateWinningLines_sizes, ?_, ?_, ?_, ?_⟩
  · simp [generateWinningLines]; omega
  · intro r hr
    rw [generateWinningLines]
    set A := (List.range N).map (fun r => (List.range N).map (fun j => r * N + j)) with hA
    set B := (List.range N).map (fun j => (List.range N).map (fun r => r * N + j)) with hB
    set D1 := (List.range N).map (fun i => i * N + i) with hD1
    set D2 := (List.range N).map (fun i => i * N + (N - 1 - i)) with hD2
    have hAlen : A.length = N := by rw [hA]; simp
    have hBlen : B.length = N := by rw [hB]; simp
    calc (A ++ B ++ [D1] ++ [D2]).getD r []
        = (A ++ B ++ [D1]).getD r [] :=
          List.getD_append _ _ _ _ (by simp [hAlen, hBlen]; omega)
      _ = (A ++ B).getD r [] :=
          List.getD_append _ _ _ _ (by simp [hAlen, hBlen]; omega)
      _ = A.getD r [] := List.getD_append _ _ _ _ (by omega)
      _ = (List.range N).map (fun j => r * N + j) := getD_map_range hr
  · intro c hc
    rw [generateWinningLines]
    set A := (List.range N).map (fun r => (List.range N).map (fun j => r * N + j)) with hA
    set B := (List.range N).map (fun j => (List.range N).map (fun r => r * N + j)) with hB
    set D1 := (List.range N).map (fun i => i * N + i) with hD1
    set D2 := (List.range N).map (fun i => i * N + (N - 1 - i)) with hD2
    have hAlen : A.length = N := by rw [hA]; simp
    have hBlen : B.length = N := by rw [hB]; simp
    calc (A ++ B ++ [D1] ++ [D2]).getD (N + c) []
        = (A ++ B ++ [D1]).getD (N + c) [] :=
          List.getD_append _ _ _ _ (by simp [hAlen, hBlen]; omega)
      _ = (A ++ B).getD (N + c) [] :=
          List.getD_append _ _ _ _ (by simp [hAlen, hBlen]; omega)
      _ = B.getD (N + c - A.length) [] :=
          List.getD_append_right _ _ _ _ (by omega)
      _ = B.getD c [] := by rw [hAlen]; simp
      _ = (List.range N).map (fun r => r * N + c) := getD_map_range hc
  · rw [generateWinningLines]
    set A := (List.range N).map (fun r => (List.range N).map (fun j => r * N + j)) with hA
    set B := (List.range N).map (fun j => (List.range N).map (fun r => r * N + j)) with hB
    set D1 := (List.range N).map (fun i => i * N + i) with hD1
    set D2 := (List.range N).map (fun i => i * N + (N - 1 - i)) with hD2
    have hAlen : A.length = N := by rw [hA]; simp
    have hBlen : B.length = N := by rw [hB]; simp
    calc (A ++ B ++ [D1] ++ [D2]).getD (2 * N) []
        = (A ++ B ++ [D1]).getD (2 * N) [] :=
          List.getD_append _ _ _ _ (by simp [hAlen, hBlen]; omega)
      _ = [D1].getD (2 * N - (A ++ B).length) [] :=
          List.getD_append_right _ _ _ _ (by simp [hAlen, hBlen]; omega)
      _ = [D1].getD 0 [] := by
          have h0 : 2 * N - (A ++ B).length = 0 := by
            simp [hAlen, hBlen]; omega
          rw [h0]
      _ = D1 := rfl
  · rw [generateWinningLines]
    set A := (List.range N).map (fun r => (List.range N).map (fun j => r * N + j)) with hA
    set B := (List.range N).map (fun j => (List.range N).map (fun r => r * N + j)) with hB
    set D1 := (List.range N).map (fun i => i * N + i) with hD1
    set D2 := (List.range N).map (fun i => i * N + (N - 1 - i)) with hD2
    have hAlen : A.length = N := by rw [hA]; simp
    have hBlen : B.length = N := by rw [hB]; simp
    calc (A ++ B ++ [D1] ++ [D2]).getD (2 * N + 1) []
        = [D2].getD (2 * N + 1 - (A ++ B ++ [D1]).length) [] :=
          List.getD_append_right _ _ _ _ (by simp [hAlen, hBlen]; omega)
      _ = [D2].getD 0 [] := by
          have h0 : 2 * N + 1 - (A ++ B ++ [D1]).length = 0 := by
            simp [hAlen, hBlen]; omega
          rw [h0]
      _ = D2 := rfl

/-- C3: a legal play (no winner on the active board, in-bounds index,
empty target cell) appends to the history truncated at `currentMove` a
copy of the active board with cell `i` set to the parity-derived mark
(X when `currentMove` is even, else O), and sets `currentMove` to the
new last index. -/
theorem handleClick_legal_play (s : GameState) (i : Nat)
    (hc : s.currentMove < s.history.length)
    (hwin : calculateWinner (currentSquares s) s.boardSize = none)
    (hcell : jsGet (currentSquares s) i = none)
    (hi : i < (currentSquares s).length) :
    (handleClick s i).history
        = s.history.take (s.currentMove + 1)
          ++ [(currentSquares s).set i
                (some (if s.currentMove % 2 = 0 then Player.X else Player.O))]
    ∧ (handleClick s i).history.length = s.currentMove + 2
    ∧ (handleClick s i).currentMove = s.currentMove + 1
    ∧ (handleClick s i).currentMove = (handleClick s i).history.length - 1 := by
  have hguard : ¬ ((calculateWinner (currentSquares s) s.boardSize).isSome
      ∨ (jsGet (currentSquares s) i).isSome) := by
    rw [hwin, hcell]; simp
  rw [handleClick_guard_neg s i hguard]
  have hset : jsArraySet (currentSquares s) i
      (some (if xIsNext s then Player.X else Player.O))
      = (currentSquares s).set i
          (some (if s.currentMove % 2 = 0 then Player.X else Player.O)) := by
    unfold jsArraySet
    rw [if_pos hi, xIsNext_mark]
  rw [hset]
  refine ⟨handlePlay_history s _, ?_, ?_, ?_⟩
  · rw [handlePlay_history]; simp; omega
  · rw [handlePlay_currentMove]; simp; omega
  · rw [handlePlay_currentMove, handlePlay_history]

/-- C3 witness: `jumpTo(0)` then a play at cell 0 on a history of
length 5 yields a history of length 2 with `currentMove = 1`. -/
theorem handleClick_legal_play_witness :
    (handleClick (jumpTo demoState5 0) 0).history.length = 2
    ∧ (handleClick (jumpTo demoState5 0) 0).currentMove = 1 := by
  have h := handleClick_legal_play (jumpTo demoState5 0) 0
    (by decide) (by decide) (by decide) (by decide)
  exact ⟨h.2.1, h.2.2.1⟩

/-- C4: a play on an occupied cell, or when the active board already
has a winner, is a silent no-op: the state is returned unchanged, so
history length, `currentMove`, `scoreX` and `scoreO` are unchanged. -/
theorem handleClick_illegal_noop (s : GameState) (i : Nat)
    (h : (calculateWinner (currentSquares s) s.boardSize).isSome
        ∨ (jsGet (currentSquares s) i).isSome) :
    handleClick s i = s
    ∧ (handleClick s i).history.length = s.history.length
    ∧ (handleClick s i).currentMove = s.currentMove
    ∧ (handleClick s i).scoreX = s.scoreX
    ∧ (handleClick s i).scoreO = s.scoreO := by
  have he := handleClick_guard_pos s i h
  exact ⟨he, by rw [he], by rw [he], by rw [he], by rw [he]⟩

/-- C4 witness: clicking the occupied cell 0 after one move, and
clicking the empty cell 5 of an already-won board, both change
nothing. -/
theorem handleClick_illegal_noop_witness :
    handleClick occupiedState 0 = occupiedState
    ∧ handleClick wonState 5 = wonState :=
  ⟨(handleClick_illegal_noop occupiedState 0 (by decide)).1,
   (handleClick_illegal_noop wonState 5 (by decide)).1⟩

/-- C5 counterexample: on a history of length 3, `jumpTo 10` does not
fail and does not leave the state unchanged — it simply sets
`currentMove := 10`, dangling past the history. -/
theorem jumpTo_oob_counterexample :
    lenThreeState.history.length = 3
    ∧ jumpTo lenThreeState 10 ≠ lenThreeState
    ∧ (jumpTo lenThreeState 10).currentMove = 10 := by
  decide

/-- C5 amended: `jumpTo` performs no range validation at all.  For
every `moveIndex` (in range or not) it sets `currentMove := moveIndex`
and leaves history, scores, grid size and screen unchanged. -/
theorem jumpTo_spec (s : GameState) (m : Nat) :
    (jumpTo s m).currentMove = m
    ∧ (jumpTo s m).history = s.history
    ∧ (jumpTo s m).scoreX = s.scoreX
    ∧ (jumpTo s m).scoreO = s.scoreO
    ∧ (jumpTo s m).boardSize = s.boardSize
    ∧ (jumpTo s m).screen = s.screen :=
  ⟨rfl, rfl, rfl, rfl, rfl, rfl⟩

/-- C6: on every click, `scoreX + scoreO` grows by at most 1, and
either both scores are unchanged, or the active board after the call
(the newly produced board) has a winner and exactly that player's
counter was incremented by 1.  A draw board has no winner, hence falls
in the unchanged case. -/
theorem handleClick_score_monotonic (s : GameState) (i : Nat) :
    (handleClick s i).scoreX + (handleClick s i).scoreO
        ≤ s.scoreX + s.scoreO + 1
    ∧ (((handleClick s i).scoreX = s.scoreX
            ∧ (handleClick s i).scoreO = s.scoreO)
         ∨ ∃ wi,
            calculateWinner (currentSquares (handleClick s i)) s.boardSize = some wi
            ∧ ((wi.player = Player.X
                    ∧ (handleClick s i).scoreX = s.scoreX + 1
                    ∧ (handleClick s i).scoreO = s.scoreO)
                 ∨ (wi.player = Player.O
                    ∧ (handleClick s i).scoreO = s.scoreO + 1
                    ∧ (handleClick s i).scoreX = s.scoreX))) := by
  by_cases h : (calculateWinner (currentSquares s) s.boardSize).isSome
      ∨ (jsGet (currentSquares s) i).isSome
  · rw [handleClick_guard_pos s i h]
    exact ⟨by omega, Or.inl ⟨rfl, rfl⟩⟩
  · rw [handleClick_guard_neg s i h]
    rcases hw : calculateWinner
        (jsArraySet (currentSquares s) i
          (some (if xIsNext s then Player.X else Player.O))) s.boardSize with _ | wi
    · have hsc := handlePlay_scores_none s _ hw
      rw [hsc.1, hsc.2]
      exact ⟨by omega, Or.inl ⟨rfl, rfl⟩⟩
    · rcases hp : wi.player with _ | _
      · have hsc := handlePlay_scores_someX s _ wi hw hp
        rw [hsc.1, hsc.2]
        refine ⟨by omega, Or.inr ⟨wi, ?_, Or.inl ⟨hp, rfl, rfl⟩⟩⟩
        rw [currentSquares_handlePlay]
        exact hw
      · have hsc := handlePlay_scores_someO s _ wi hw hp
        rw [hsc.1, hsc.2]
        refine ⟨by omega, Or.inr ⟨wi, ?_, Or.inr ⟨hp, rfl, rfl⟩⟩⟩
        rw [currentSquares_handlePlay]
        exact hw

/-- C7: `restartGame` resets the history to a single empty N×N board
and `currentMove` to 0, and changes nothing else: scores, grid size and
screen keep their previous values. -/
theorem restartGame_spec (s : GameState) :
    (restartGame s).history = [emptyBoard s.boardSize]
    ∧ (restartGame s).currentMove = 0
    ∧ (restartGame s).scoreX = s.scoreX
    ∧ (restartGame s).scoreO = s.scoreO
    ∧ (restartGame s).boardSize = s.boardSize
    ∧ (restartGame s).screen = s.screen :=
  ⟨rfl, rfl, rfl, rfl, rfl, rfl⟩

/-- C8: the status read is derived from the active board (and parity):
Win(p) when the active board has a winning line for p, Draw when the
board has no winner and every cell is filled, and otherwise
InProgress with next player X exactly when `currentMove` is even. -/
theorem status_characterization (s : GameState) :
    (∀ wi, calculateWinner (currentSquares s) s.boardSize = some wi →
        status s = Status.win wi.player)
    ∧ (calculateWinner (currentSquares s) s.boardSize = none →
        ((currentSquares s).all (fun v => v.isSome) = true →
            status s = Status.draw)
        ∧ ((currentSquares s).all (fun v => v.isSome) = false →
            status s = Status.next
              (if s.currentMove % 2 = 0 then Player.X else Player.O))) := by
  refine ⟨?_, ?_⟩
  · intro wi hw
    unfold status
    simp only [hw]
  · intro hw
    refine ⟨?_, ?_⟩
    · intro hall
      unfold status
      simp only [hw, hall, if_true]
    · intro hall
      unfold status
      simp only [hw, hall, Bool.false_eq_true, if_false, xIsNext_mark]

/-- C8 witness: a board with X's completed row 0 reads Win(X). -/
theorem status_characterization_witness :
    status wonState = Status.win Player.X :=
  (status_characterization wonState).1 ⟨Player.X, [0, 1, 2]⟩ (by decide)

theorem all_jsGet_congr (a b : Board) (p : Player) (line : List Nat)
    (h : ∀ idx ∈ line, jsGet a idx = jsGet b idx) :
    line.all (fun idx => jsGet a idx = some p)
      = line.all (fun idx => jsGet b idx = some p) := by
  induction line with
  | nil => rfl
  | cons x xs ih =>
    simp only [List.all_cons]
    rw [h x (by simp), ih (fun idx hidx => h idx (by simp [hidx]))]

/-- The winner scan only reads cells named by the scanned lines. -/
theorem findWin_congr (a b : Board) (lines : List (List Nat))
    (h : ∀ line ∈ lines, ∀ idx ∈ line, jsGet a idx = jsGet b idx) :
    findWin a lines = findWin b lines := by
  induction lines with
  | nil => rfl
  | cons line rest ih =>
    have hrest := ih (fun l hl => h l (List.mem_cons_of_mem _ hl))
    cases line with
    | nil =>
      show findWin a rest = findWin b rest
      exact hrest
    | cons first tl =>
      have hline : ∀ idx ∈ (first :: tl), jsGet a idx = jsGet b idx :=
        h _ (List.mem_cons_self _ _)
      have hfirst := hline first (by simp)
      simp only [findWin]
      rw [hfirst]
      rcases hgb : jsGet b first with _ | p
      · simp only [hgb]
        exact hrest
      · simp only [hgb]
        rw [all_jsGet_congr a b p (first :: tl) hline]
        cases hcond : (first :: tl).all (fun idx => jsGet b idx = some p) <;>
          simp [hcond, hrest]

/-- Boards that agree on every index below `N²` have the same winner. -/
theorem calculateWinner_congr {a b : Board} {N : Nat}
    (h : ∀ idx, idx < N * N → jsGet a idx = jsGet b idx) :
    calculateWinner a N = calculateWinner b N :=
  findWin_congr a b _ (fun line hline idx hidx =>
    h idx ((generateWinningLines_sizes line hline).2 idx hidx))

/-- C9 counterexample: on a fresh 3×3 game, a play at the out-of-bounds
cell 9 is NOT a no-op: the history grows to length 2 (with an extended
board appended) and `currentMove` advances to 1. -/
theorem handleClick_oob_counterexample :
    freshState.boardSize * freshState.boardSize = 9
    ∧ handleClick freshState 9 ≠ freshState
    ∧ (handleClick freshState 9).history.length = 2
    ∧ (handleClick freshState 9).currentMove = 1 := by
  decide

/-- C9 amended: `handleClick` never checks the cell index against the
board bounds; an index past the end of the board reads as an empty
cell, so when the active board (of length `N²`) has no winner the play
proceeds: the truncated history gets appended a board extended to
length `cellIndex + 1` carrying the parity-derived mark at `cellIndex`,
and `currentMove` advances to the new last index; the scores stay
unchanged (no line can be completed by a cell beyond `N²`). -/
theorem handleClick_oob_play (s : GameState) (i : Nat)
    (hwin : calculateWinner (currentSquares s) s.boardSize = none)
    (hlen : (currentSquares s).length = s.boardSize * s.boardSize)
    (hi : s.boardSize * s.boardSize ≤ i) :
    (handleClick s i).history
        = s.history.take (s.currentMove + 1)
          ++ [currentSquares s
              ++ List.replicate (i - s.boardSize * s.boardSize) none
              ++ [some (if s.currentMove % 2 = 0 then Player.X else Player.O)]]
    ∧ (handleClick s i).currentMove
        = (s.history.take (s.currentMove + 1)).length
    ∧ (handleClick s i).scoreX = s.scoreX
    ∧ (handleClick s i).scoreO = s.scoreO := by
  have hcell : jsGet (currentSquares s) i = none := by
    unfold jsGet
    exact List.getD_eq_default _ _ (by omega)
  have hguard : ¬ ((calculateWinner (currentSquares s) s.boardSize).isSome
      ∨ (jsGet (currentSquares s) i).isSome) := by
    rw [hwin, hcell]; simp
  rw [handleClick_guard_neg s i hguard]
  have hset : jsArraySet (currentSquares s) i
      (some (if xIsNext s then Player.X else Player.O))
      = currentSquares s
        ++ List.replicate (i - s.boardSize * s.boardSize) none
        ++ [some (if s.currentMove % 2 = 0 then Player.X else Player.O)] := by
    unfold jsArraySet
    rw [if_neg (by omega), xIsNext_mark, hlen]
  rw [hset]
  have hcong : ∀ idx, idx < s.boardSize * s.boardSize →
      jsGet (currentSquares s
          ++ List.replicate (i - s.boardSize * s.boardSize) none
          ++ [some (if s.currentMove % 2 = 0 then Player.X else Player.O)]) idx
        = jsGet (currentSquares s) idx := by
    intro idx hidx
    unfold jsGet
    rw [List.append_assoc]
    exact List.getD_append _ _ _ _ (by omega)
  have hwin2 : calculateWinner
      (currentSquares s
        ++ List.replicate (i - s.boardSize * s.boardSize) none
        ++ [some (if s.currentMove % 2 = 0 then Player.X else Player.O)])
      s.boardSize = none := by
    rw [calculateWinner_congr hcong]
    exact hwin
  refine ⟨handlePlay_history s _, ?_, ?_, ?_⟩
  · rw [handlePlay_currentMove]; simp
  · exact (handlePlay_scores_none s _ hwin2).1
  · exact (handlePlay_scores_none s _ hwin2).2

/-- C9 amended witness: instantiating the out-of-bounds play at a fresh
3×3 game and cell 9. -/
theorem handleClick_oob_play_witness :
    (handleClick freshState 9).history
        = freshState.history.take (freshState.currentMove + 1)
          ++ [currentSquares freshState
              ++ List.replicate (9 - freshState.boardSize * freshState.boardSize) none
              ++ [some (if freshState.currentMove % 2 = 0
                        then Player.X else Player.O)]]
    ∧ (handleClick freshState 9).currentMove
        = (freshState.history.take (freshState.currentMove + 1)).length
    ∧ (handleClick freshState 9).scoreX = freshState.scoreX
    ∧ (handleClick freshState 9).scoreO = freshState.scoreO :=
  handleClick_oob_play freshState 9 (by decide) (by decide) (by decide)

/-- C10: `handleStart` and `restartGame` set the history to the
one-element list holding the empty board; `handlePlay` always leaves a
non-empty history whose first snapshot is preserved, and afterwards
`currentMove` is the last index of the history, whose entry is the
board just played. -/
theorem history_invariants (s : GameState) (ns : Board) :
    (handleStart s).history = [emptyBoard s.boardSize]
    ∧ (restartGame s).history = [emptyBoard s.boardSize]
    ∧ (handlePlay s ns).history ≠ []
    ∧ (s.history ≠ [] →
        (handlePlay s ns).history.headD [] = s.history.headD [])
    ∧ (handlePlay s ns).currentMove = (handlePlay s ns).history.length - 1
    ∧ currentSquares (handlePlay s ns) = ns := by
  refine ⟨rfl, rfl, ?_, ?_, ?_, currentSquares_handlePlay s ns⟩
  · rw [handlePlay_history]; simp
  · intro hne
    rw [handlePlay_history]
    cases hh : s.history with
    | nil => exact absurd hh hne
    | cons a t =>
      rw [List.take_succ_cons]
      rfl
  · rw [handlePlay_currentMove, handlePlay_history]

/-- C10 witness: a play on a one-move game keeps the initial empty
board at index 0. -/
theorem history_invariants_witness :
    (handlePlay occupiedState hb2).history.headD []
      = occupiedState.history.headD [] :=
  (history_invariants occupiedState hb2).2.2.2.1 (by decide)

end ReactXO
